import Mathlib

/-! # tweet-feeder: the watermark loop of `main` and the user-id lookup

A shallow embedding of `src/main.go`.  Go strings are byte sequences, the
mutable variable `last_id` and the emitted log lines are threaded through an
explicit state, and the results of the HTTP and JSON library calls are inputs
of the model.
-/

namespace TweetFeeder

/-! ## Data model -/

/-- A Go `string`: an immutable sequence of bytes. -/
abbrev GoString := List (Fin 256)

/-- A Go `error` value, identified by its message. -/
abbrev GoError := String

/-- The Go struct `User` (main.go, lines 24-28). -/
structure User where
  Id : GoString
  Name : GoString
  Username : GoString
deriving DecidableEq, Repr

/-- The Go struct `Tweet` (main.go, lines 30-34). -/
structure Tweet where
  CreatedAt : GoString
  Id : GoString
  Text : GoString
deriving DecidableEq, Repr

/-- The Go struct `UsersResponse` (main.go, lines 15-17); a missing or null
`data` field decodes to the nil slice, which is the empty list here. -/
structure UsersResponse where
  Data : List User
deriving DecidableEq, Repr

/-- The Go struct `Metadata` (main.go, lines 36-41). -/
structure Metadata where
  NewestId : GoString
  NextToken : GoString
  OldestId : GoString
  ResultCount : Int
deriving DecidableEq, Repr

/-- The Go struct `TweetsResponse` (main.go, lines 19-22). -/
structure TweetsResponse where
  Data : List Tweet
  Metadata : Metadata
deriving DecidableEq, Repr

/-! ## `strings.Compare` -/

/-- The Go standard library function `strings.Compare`: byte-wise
lexicographic three-way comparison, `-1` when `a < b`, `0` when `a == b`,
`+1` when `a > b`; a proper initial segment sorts first. -/
def stringsCompare : GoString → GoString → Int
  | [], [] => 0
  | [], _ :: _ => -1
  | _ :: _, [] => 1
  | a :: as, b :: bs =>
    if a < b then -1 else if b < a then 1 else stringsCompare as bs

/-- The Go condition `strings.Compare(a, b) < 0`, that is `a < b`. -/
def lexLt (a b : GoString) : Prop := stringsCompare a b < 0

/-- The condition `strings.Compare(a, b) <= 0`, that is `a <= b`. -/
def lexLe (a b : GoString) : Prop := stringsCompare a b ≤ 0

instance (a b : GoString) : Decidable (lexLt a b) :=
  inferInstanceAs (Decidable (stringsCompare a b < 0))

instance (a b : GoString) : Decidable (lexLe a b) :=
  inferInstanceAs (Decidable (stringsCompare a b ≤ 0))

/-! ## The user-id lookup -/

/-- How a Go call ends: it returns a value with a nil error, it returns a
non-nil error, or it panics at run time with `index out of range [index] with
length len`. -/
inductive Outcome (α : Type) where
  | ok (val : α)
  | err (e : GoError)
  | indexPanic (index len : Nat)
deriving DecidableEq, Repr

/-- The results of the library calls made by `getTwitterUserId`, in the order
in which the function makes them. -/
structure UserLookup where
  /-- Result of `http.NewRequest`. -/
  newRequest : Except GoError Unit
  /-- Result of `client.Do`. -/
  clientDo : Except GoError Unit
  /-- Result of `io.ReadAll` on the response body. -/
  readAll : Except GoError GoString
  /-- Result of `json.Unmarshal` of a body into a `UsersResponse`; the JSON
  value `null`, which would leave the pointer `r` nil, is not covered. -/
  unmarshal : GoString → Except GoError UsersResponse

/-- The Go function `getTwitterUserId` (main.go, lines 43-65).  Each library
error is returned to the caller; the last line indexes `r.Data[0]` without a
length check, which panics when the slice is empty. -/
def getTwitterUserId (w : UserLookup) : Outcome GoString :=
  match w.newRequest with
  | .error e => .err e
  | .ok _ =>
    match w.clientDo with
    | .error e => .err e
    | .ok _ =>
      match w.readAll with
      | .error e => .err e
      | .ok body =>
        match w.unmarshal body with
        | .error e => .err e
        | .ok r =>
          match r.Data[0]? with
          | some u => .ok u.Id
          | none => .indexPanic 0 r.Data.length

/-- Where `main` stands after the call of `getTwitterUserId` (lines 115-123). -/
inductive Phase where
  /-- The branch `err != nil`: `log.Fatal` with "Twitter user not found". -/
  | fatal (e : GoError)
  /-- An unrecovered run-time panic ended the process. -/
  | crashed (index len : Nat)
  /-- The polling loop is entered with this user id. -/
  | polling (twitterUserId : GoString)
deriving DecidableEq, Repr

/-- Lines 115-123 of `main`: the fatal branch is taken exactly on a non-nil
error. -/
def mainResolve (w : UserLookup) : Phase :=
  match getTwitterUserId w with
  | .err e => .fatal e
  | .indexPanic i n => .crashed i n
  | .ok id => .polling id

/-! ## The polling loop -/

/-- The results of the library calls made by `getTweets`. -/
structure TweetLookup where
  /-- Result of `http.NewRequest`. -/
  newRequest : Except GoError Unit
  /-- Result of `client.Do`. -/
  clientDo : Except GoError Unit
  /-- Result of `io.ReadAll` on the response body. -/
  readAll : Except GoError GoString
  /-- Result of `json.Unmarshal` of a body into a `TweetsResponse`; the JSON
  value `null`, which would leave the pointer `r` nil, is not covered. -/
  unmarshal : GoString → Except GoError TweetsResponse

/-- The Go function `getTweets` (main.go, lines 67-93): the slice starts
empty, every element of `r.Data` is appended in order. -/
def getTweets (w : TweetLookup) : List Tweet × Option GoError :=
  let tweets : List Tweet := []
  match w.newRequest with
  | .error e => (tweets, some e)
  | .ok _ =>
    match w.clientDo with
    | .error e => (tweets, some e)
    | .ok _ =>
      match w.readAll with
      | .error e => (tweets, some e)
      | .ok body =>
        match w.unmarshal body with
        | .error e => (tweets, some e)
        | .ok r => (r.Data.foldl (fun acc t => acc ++ [t]) tweets, none)

/-- The state of the polling loop: the variable `last_id` and the tweets
logged so far, oldest log line first. -/
structure PollState where
  last_id : GoString
  logged : List Tweet
deriving DecidableEq, Repr

/-- The body of `for _, t := range tweets` (main.go, lines 131-134). -/
def visit (s : PollState) (t : Tweet) : PollState :=
  if stringsCompare s.last_id t.Id < 0 then
    { last_id := t.Id, logged := s.logged ++ [t] }
  else s

/-- The loop `for _, t := range tweets` (main.go, lines 130-135). -/
def rangeTweets (s : PollState) (tweets : List Tweet) : PollState :=
  tweets.foldl visit s

/-- One poll cycle started with `last_id = W` and nothing logged yet: the
field `logged` is what this cycle reports, `last_id` the watermark after. -/
def pollCycle (W : GoString) (P : List Tweet) : PollState :=
  rangeTweets { last_id := W, logged := [] } P

/-- Successive poll cycles (the `for` of main.go, lines 125-137), one per
successfully fetched page. -/
def pollCycles (s : PollState) (pages : List (List Tweet)) : PollState :=
  pages.foldl rangeTweets s

/-- The polling loop of `main` from its initial state `last_id := ""`. -/
def mainPolling (pages : List (List Tweet)) : PollState :=
  pollCycles { last_id := [], logged := [] } pages

/-- The states the loop goes through while it visits `tweets`, the starting
state first. -/
def visitTrace (s : PollState) : List Tweet → List PollState
  | [] => [s]
  | t :: ts => s :: visitTrace (visit s t) ts

/-! ## What the specification asks for -/

/-- The "new" posts as the specification words them: the posts of the page
whose ID is greater than the watermark, sorted ascending by ID. -/
def specNewPosts (W : GoString) (P : List Tweet) : List Tweet :=
  (P.filter (fun t => decide (lexLt W t.Id))).insertionSort
    (fun a b => lexLe a.Id b.Id)

/-- The greater of two IDs under `strings.Compare`. -/
def lexMax (a b : GoString) : GoString :=
  if stringsCompare a b < 0 then b else a

/-- The updated watermark as the specification words it: the maximum of the
watermark and of all post IDs of the page. -/
def specWatermark (W : GoString) (P : List Tweet) : GoString :=
  (P.map (fun t => t.Id)).foldl lexMax W

/-! ## Concrete data -/

/-- A tweet whose ID is the one-digit string `d` (ASCII `0x30 + d`). -/
def digitTweet (d : Fin 10) : Tweet :=
  { CreatedAt := [], Id := [⟨0x30 + d.val, by omega⟩], Text := [] }

/-- The page with IDs "3", "1", "2", in this order. -/
def page312 : List Tweet := [digitTweet 3, digitTweet 1, digitTweet 2]

/-- The page with IDs "1", "2", "3", in this order. -/
def page123 : List Tweet := [digitTweet 1, digitTweet 2, digitTweet 3]

/-- The page with IDs "3", "2", "1", in this order (newest first). -/
def page321 : List Tweet := [digitTweet 3, digitTweet 2, digitTweet 1]

/-- A user lookup in which every library call succeeds and the body decodes
to a response without users, as for the bodies `{"data": []}` and `{}`. -/
def emptyUserLookup : UserLookup :=
  { newRequest := .ok (), clientDo := .ok (), readAll := .ok [],
    unmarshal := fun _ => .ok { Data := [] } }

/-- The loop invariant behind the absence of repeated log lines: the logged
IDs are strictly increasing and none exceeds `last_id`. -/
def LogInv (s : PollState) : Prop :=
  List.Pairwise (fun a b : Tweet => lexLt a.Id b.Id) s.logged ∧
    ∀ t ∈ s.logged, lexLe t.Id s.last_id

/-! ## `strings.Compare` is a strict total order -/

theorem stringsCompare_self (a : GoString) : stringsCompare a a = 0 := by
  induction a with
  | nil => rfl
  | cons x xs ih => simp [stringsCompare, ih]

theorem stringsCompare_neg (a b : GoString) :
    stringsCompare b a = - stringsCompare a b := by
  induction a generalizing b with
  | nil => cases b <;> simp [stringsCompare]
  | cons x xs ih =>
    cases b with
    | nil => simp [stringsCompare]
    | cons y ys =>
      simp only [stringsCompare]
      rcases lt_trichotomy x y with h | h | h
      · have h2 : ¬ y < x := not_lt.mpr (le_of_lt h)
        simp [h, h2]
      · subst h
        simp [ih ys]
      · have h2 : ¬ x < y := not_lt.mpr (le_of_lt h)
        simp [h, h2]

theorem stringsCompare_cons (x y : Fin 256) (xs ys : GoString) :
    stringsCompare (x :: xs) (y :: ys) =
      if x < y then -1 else if y < x then 1 else stringsCompare xs ys := rfl

theorem stringsCompare_eq_zero {a b : GoString} (h : stringsCompare a b = 0) :
    a = b := by
  induction a generalizing b with
  | nil => cases b with
    | nil => rfl
    | cons y ys => simp [stringsCompare] at h
  | cons x xs ih =>
    cases b with
    | nil => simp [stringsCompare] at h
    | cons y ys =>
      rw [stringsCompare_cons] at h
      rcases lt_trichotomy x y with hxy | hxy | hxy
      · simp [hxy] at h
      · subst hxy
        simp only [lt_self_iff_false, if_false] at h
        rw [ih h]
      · have h2 : ¬ x < y := not_lt.mpr (le_of_lt hxy)
        simp [hxy, h2] at h

theorem lexLt_irrefl (a : GoString) : ¬ lexLt a a := by
  simp [lexLt, stringsCompare_self]

theorem lexLe_refl (a : GoString) : lexLe a a := by
  simp [lexLe, stringsCompare_self]

theorem lexLt_trans {a b c : GoString} (hab : lexLt a b) (hbc : lexLt b c) :
    lexLt a c := by
  unfold lexLt at *
  induction a generalizing b c with
  | nil =>
    cases c with
    | nil => cases b <;> simp [stringsCompare] at hbc
    | cons z zs => simp [stringsCompare]
  | cons x xs ih =>
    cases b with
    | nil => simp [stringsCompare] at hab
    | cons y ys =>
      cases c with
      | nil => simp [stringsCompare] at hbc
      | cons z zs =>
        rw [stringsCompare_cons] at hab hbc ⊢
        rcases lt_trichotomy x y with hxy | hxy | hxy
        · rcases lt_trichotomy y z with hyz | hyz | hyz
          · simp [lt_trans hxy hyz]
          · subst hyz
            simp [hxy]
          · have h2 : ¬ y < z := not_lt.mpr (le_of_lt hyz)
            simp [hyz, h2] at hbc
        · subst hxy
          simp only [lt_self_iff_false, if_false] at hab
          rcases lt_trichotomy x z with hxz | hxz | hxz
          · simp [hxz]
          · subst hxz
            simp only [lt_self_iff_false, if_false] at hbc ⊢
            exact ih hab hbc
          · have h2 : ¬ x < z := not_lt.mpr (le_of_lt hxz)
            simp [hxz, h2] at hbc
        · have h2 : ¬ x < y := not_lt.mpr (le_of_lt hxy)
          simp [hxy, h2] at hab

theorem not_lexLt_iff {a b : GoString} : ¬ lexLt a b ↔ lexLe b a := by
  unfold lexLt lexLe
  rw [stringsCompare_neg a b]
  omega

theorem lexLe_iff {a b : GoString} : lexLe a b ↔ lexLt a b ∨ a = b := by
  constructor
  · intro h
    by_cases h0 : stringsCompare a b = 0
    · exact Or.inr (stringsCompare_eq_zero h0)
    · left
      unfold lexLt lexLe at *
      omega
  · rintro (h | h)
    · unfold lexLt lexLe at *
      omega
    · subst h
      exact lexLe_refl a

theorem lexLt_asymm {a b : GoString} (h : lexLt a b) : ¬ lexLt b a := by
  unfold lexLt at *
  rw [stringsCompare_neg a b]
  omega

theorem lexLe_of_lexLt {a b : GoString} (h : lexLt a b) : lexLe a b :=
  lexLe_iff.mpr (Or.inl h)

theorem lexLt_of_lexLt_of_lexLe {a b c : GoString} (hab : lexLt a b)
    (hbc : lexLe b c) : lexLt a c := by
  rcases lexLe_iff.mp hbc with h | h
  · exact lexLt_trans hab h
  · subst h
    exact hab

theorem lexLt_of_lexLe_of_lexLt {a b c : GoString} (hab : lexLe a b)
    (hbc : lexLt b c) : lexLt a c := by
  rcases lexLe_iff.mp hab with h | h
  · exact lexLt_trans h hbc
  · subst h
    exact hbc

theorem lexLe_trans {a b c : GoString} (hab : lexLe a b) (hbc : lexLe b c) :
    lexLe a c := by
  rcases lexLe_iff.mp hab with h | h
  · exact lexLe_of_lexLt (lexLt_of_lexLt_of_lexLe h hbc)
  · subst h
    exact hbc

theorem lexLe_antisymm {a b : GoString} (hab : lexLe a b) (hba : lexLe b a) :
    a = b := by
  rcases lexLe_iff.mp hab with h | h
  · exact absurd h (not_lexLt_iff.mpr hba)
  · exact h

theorem lexLe_nil (a : GoString) : lexLe [] a := by
  cases a <;> simp [lexLe, stringsCompare]


/-! ## The page handed to the loop -/

theorem foldl_append_singleton (init l : List Tweet) :
    l.foldl (fun acc t => acc ++ [t]) init = init ++ l := by
  induction l generalizing init with
  | nil => simp
  | cons t ts ih => simp [List.foldl_cons, ih]

/-- When every library call succeeds, `getTweets` returns the decoded `Data`
in its order, with a nil error: this is the page of a poll cycle. -/
theorem getTweets_of_success (w : TweetLookup) (body : GoString)
    (r : TweetsResponse) (h1 : w.newRequest = .ok ()) (h2 : w.clientDo = .ok ())
    (h3 : w.readAll = .ok body) (h4 : w.unmarshal body = .ok r) :
    getTweets w = (r.Data, none) := by
  simp [getTweets, h1, h2, h3, h4, foldl_append_singleton]

/-! ## The loop, one tweet at a time -/

theorem visit_of_lt {s : PollState} {t : Tweet} (h : lexLt s.last_id t.Id) :
    visit s t = { last_id := t.Id, logged := s.logged ++ [t] } := by
  unfold lexLt at h
  simp [visit, h]

theorem visit_of_not_lt {s : PollState} {t : Tweet} (h : ¬ lexLt s.last_id t.Id) :
    visit s t = s := by
  unfold lexLt at h
  simp [visit, h]

theorem rangeTweets_nil (s : PollState) : rangeTweets s [] = s := rfl

theorem rangeTweets_cons (s : PollState) (t : Tweet) (ts : List Tweet) :
    rangeTweets s (t :: ts) = rangeTweets (visit s t) ts := rfl

theorem rangeTweets_append (s : PollState) (P Q : List Tweet) :
    rangeTweets s (P ++ Q) = rangeTweets (rangeTweets s P) Q := by
  simp [rangeTweets, List.foldl_append]

/-- What a run of the loop logs and where it leaves `last_id` depend on the
starting state through `last_id` only; earlier log lines stay in front. -/
theorem rangeTweets_eq (s : PollState) (P : List Tweet) :
    rangeTweets s P =
      { last_id := (pollCycle s.last_id P).last_id,
        logged := s.logged ++ (pollCycle s.last_id P).logged } := by
  induction P generalizing s with
  | nil => simp [pollCycle, rangeTweets_nil]
  | cons t ts ih =>
    unfold pollCycle
    rw [rangeTweets_cons, rangeTweets_cons, ih (visit s t), ih (visit _ t)]
    by_cases h : lexLt s.last_id t.Id
    · have h2 : lexLt (PollState.mk s.last_id []).last_id t.Id := h
      rw [visit_of_lt h, visit_of_lt h2]
      simp
    · have h2 : ¬ lexLt (PollState.mk s.last_id []).last_id t.Id := h
      rw [visit_of_not_lt h, visit_of_not_lt h2]
      simp

theorem pollCycle_nil (W : GoString) :
    pollCycle W [] = { last_id := W, logged := [] } := rfl

theorem pollCycle_cons_of_lt {W : GoString} {t : Tweet} (ts : List Tweet)
    (h : lexLt W t.Id) :
    pollCycle W (t :: ts) =
      { last_id := (pollCycle t.Id ts).last_id,
        logged := t :: (pollCycle t.Id ts).logged } := by
  have h2 : lexLt (PollState.mk W []).last_id t.Id := h
  unfold pollCycle
  rw [rangeTweets_cons, visit_of_lt h2, rangeTweets_eq]
  simp [pollCycle]

theorem pollCycle_cons_of_not_lt {W : GoString} {t : Tweet} (ts : List Tweet)
    (h : ¬ lexLt W t.Id) :
    pollCycle W (t :: ts) = pollCycle W ts := by
  have h2 : ¬ lexLt (PollState.mk W []).last_id t.Id := h
  unfold pollCycle
  rw [rangeTweets_cons, visit_of_not_lt h2]


/-! ## The watermark after a cycle -/

theorem visit_last_id_le (s : PollState) (t : Tweet) :
    lexLe s.last_id (visit s t).last_id := by
  by_cases h : lexLt s.last_id t.Id
  · rw [visit_of_lt h]
    exact lexLe_of_lexLt h
  · rw [visit_of_not_lt h]
    exact lexLe_refl _

theorem rangeTweets_last_id_le (s : PollState) (P : List Tweet) :
    lexLe s.last_id (rangeTweets s P).last_id := by
  induction P generalizing s with
  | nil => exact lexLe_refl _
  | cons t ts ih =>
    rw [rangeTweets_cons]
    exact lexLe_trans (visit_last_id_le s t) (ih (visit s t))

theorem visit_id_le (s : PollState) (t : Tweet) :
    lexLe t.Id (visit s t).last_id := by
  by_cases h : lexLt s.last_id t.Id
  · rw [visit_of_lt h]
    exact lexLe_refl _
  · rw [visit_of_not_lt h]
    exact not_lexLt_iff.mp h

theorem rangeTweets_id_le (s : PollState) (P : List Tweet) :
    ∀ t ∈ P, lexLe t.Id (rangeTweets s P).last_id := by
  induction P generalizing s with
  | nil => intro t ht; cases ht
  | cons u us ih =>
    intro t ht
    rw [rangeTweets_cons]
    rcases List.mem_cons.mp ht with h | h
    · subst h
      exact lexLe_trans (visit_id_le s t) (rangeTweets_last_id_le (visit s t) us)
    · exact ih (visit s u) t h

theorem rangeTweets_last_id_mem (s : PollState) (P : List Tweet) :
    (rangeTweets s P).last_id = s.last_id ∨
      ∃ t ∈ P, t.Id = (rangeTweets s P).last_id := by
  induction P generalizing s with
  | nil => exact Or.inl rfl
  | cons u us ih =>
    rw [rangeTweets_cons]
    rcases ih (visit s u) with h | ⟨t, ht, hid⟩
    · rw [h]
      by_cases hlt : lexLt s.last_id u.Id
      · rw [visit_of_lt hlt]
        exact Or.inr ⟨u, List.mem_cons_self u us, rfl⟩
      · rw [visit_of_not_lt hlt]
        exact Or.inl rfl
    · exact Or.inr ⟨t, List.mem_cons_of_mem u ht, hid⟩

theorem visit_last_id_eq_lexMax (s : PollState) (t : Tweet) :
    (visit s t).last_id = lexMax s.last_id t.Id := by
  unfold visit lexMax
  split_ifs <;> rfl

theorem rangeTweets_last_id_eq_foldl (s : PollState) (P : List Tweet) :
    (rangeTweets s P).last_id = specWatermark s.last_id P := by
  induction P generalizing s with
  | nil => rfl
  | cons u us ih =>
    rw [rangeTweets_cons, ih (visit s u), visit_last_id_eq_lexMax]
    rfl

theorem rangeTweets_of_all_le (s : PollState) (P : List Tweet)
    (h : ∀ t ∈ P, lexLe t.Id s.last_id) : rangeTweets s P = s := by
  induction P with
  | nil => rfl
  | cons u us ih =>
    have hu : ¬ lexLt s.last_id u.Id :=
      not_lexLt_iff.mpr (h u (List.mem_cons_self u us))
    rw [rangeTweets_cons, visit_of_not_lt hu]
    exact ih (fun t ht => h t (List.mem_cons_of_mem u ht))

/-- Two values that are both a greatest element of `W` and the IDs of pages
with the same members are equal. -/
theorem greatest_unique {W r r' : GoString} {P P' : List Tweet}
    (hiff : ∀ t, t ∈ P ↔ t ∈ P')
    (hmem : r = W ∨ ∃ t ∈ P, t.Id = r)
    (hW : lexLe W r) (hub : ∀ t ∈ P, lexLe t.Id r)
    (hmem' : r' = W ∨ ∃ t ∈ P', t.Id = r')
    (hW' : lexLe W r') (hub' : ∀ t ∈ P', lexLe t.Id r') : r = r' := by
  apply lexLe_antisymm
  · rcases hmem with h | ⟨t, ht, hid⟩
    · rw [h]; exact hW'
    · rw [← hid]; exact hub' t ((hiff t).mp ht)
  · rcases hmem' with h | ⟨t, ht, hid⟩
    · rw [h]; exact hW
    · rw [← hid]; exact hub t ((hiff t).mpr ht)

/-! ## What a cycle logs -/

theorem pollCycle_logged_gt (W : GoString) (P : List Tweet) :
    ∀ t ∈ (pollCycle W P).logged, lexLt W t.Id := by
  induction P generalizing W with
  | nil => intro t ht; simp [pollCycle_nil] at ht
  | cons u us ih =>
    intro t ht
    by_cases h : lexLt W u.Id
    · rw [pollCycle_cons_of_lt us h] at ht
      rcases List.mem_cons.mp ht with e | hin
      · rw [e]; exact h
      · exact lexLt_trans h (ih u.Id t hin)
    · rw [pollCycle_cons_of_not_lt us h] at ht
      exact ih W t ht

theorem pollCycle_logged_pairwise (W : GoString) (P : List Tweet) :
    List.Pairwise (fun a b : Tweet => lexLt a.Id b.Id) (pollCycle W P).logged := by
  induction P generalizing W with
  | nil => simp [pollCycle_nil]
  | cons u us ih =>
    by_cases h : lexLt W u.Id
    · rw [pollCycle_cons_of_lt us h]
      exact List.Pairwise.cons (pollCycle_logged_gt u.Id us) (ih u.Id)
    · rw [pollCycle_cons_of_not_lt us h]
      exact ih W

theorem pollCycle_logged_sublist (W : GoString) (P : List Tweet) :
    List.Sublist (pollCycle W P).logged
      (P.filter (fun t => decide (lexLt W t.Id))) := by
  induction P generalizing W with
  | nil => simp [pollCycle_nil]
  | cons u us ih =>
    by_cases h : lexLt W u.Id
    · rw [pollCycle_cons_of_lt us h]
      have hf : (u :: us).filter (fun t => decide (lexLt W t.Id)) =
          u :: us.filter (fun t => decide (lexLt W t.Id)) := by
        simp [List.filter_cons, h]
      rw [hf]
      refine List.Sublist.cons₂ u ((ih u.Id).trans ?_)
      apply List.monotone_filter_right
      intro a ha
      have ha2 : lexLt u.Id a.Id := of_decide_eq_true ha
      exact decide_eq_true (lexLt_trans h ha2)
    · rw [pollCycle_cons_of_not_lt us h]
      have hf : (u :: us).filter (fun t => decide (lexLt W t.Id)) =
          us.filter (fun t => decide (lexLt W t.Id)) := by
        simp [List.filter_cons, h]
      rw [hf]
      exact ih W

theorem pollCycle_logged_of_ascending (W : GoString) (P : List Tweet)
    (hasc : List.Pairwise (fun a b : Tweet => lexLt a.Id b.Id) P) :
    (pollCycle W P).logged = P.filter (fun t => decide (lexLt W t.Id)) := by
  induction P generalizing W with
  | nil => simp [pollCycle_nil]
  | cons u us ih =>
    have hhead := (List.pairwise_cons.mp hasc).1
    have htail := (List.pairwise_cons.mp hasc).2
    by_cases h : lexLt W u.Id
    · rw [pollCycle_cons_of_lt us h]
      have hall : ∀ a ∈ us, decide (lexLt u.Id a.Id) = true :=
        fun a ha => decide_eq_true (hhead a ha)
      have hall2 : ∀ a ∈ us, decide (lexLt W a.Id) = true :=
        fun a ha => decide_eq_true (lexLt_trans h (hhead a ha))
      simp only [List.filter_cons, h, decide_True, if_true]
      rw [ih u.Id htail, List.filter_eq_self.mpr hall, List.filter_eq_self.mpr hall2]
    · rw [pollCycle_cons_of_not_lt us h]
      simp only [List.filter_cons, h, decide_False]
      exact ih W htail

theorem specNewPosts_of_ascending (W : GoString) (P : List Tweet)
    (hasc : List.Pairwise (fun a b : Tweet => lexLt a.Id b.Id) P) :
    specNewPosts W P = P.filter (fun t => decide (lexLt W t.Id)) := by
  unfold specNewPosts
  apply List.Sorted.insertionSort_eq
  have h1 : List.Pairwise (fun a b : Tweet => lexLe a.Id b.Id) P :=
    hasc.imp (fun hab => lexLe_of_lexLt hab)
  exact h1.filter _

theorem pollCycle_logged_le_last (W : GoString) (P : List Tweet) :
    ∀ t ∈ (pollCycle W P).logged, lexLe t.Id (pollCycle W P).last_id :=
  fun t ht =>
    rangeTweets_id_le { last_id := W, logged := [] } P t
      ((pollCycle_logged_sublist W P).subset ht
      |> fun h => (List.mem_filter.mp h).1)


/-! ## The loop invariant over successive cycles -/

theorem LogInv_rangeTweets {s : PollState} (h : LogInv s) (P : List Tweet) :
    LogInv (rangeTweets s P) := by
  rw [rangeTweets_eq]
  refine ⟨?_, ?_⟩
  · refine List.pairwise_append.mpr ⟨h.1, pollCycle_logged_pairwise _ P, ?_⟩
    intro a ha b hb
    exact lexLt_of_lexLe_of_lexLt (h.2 a ha) (pollCycle_logged_gt _ P b hb)
  · intro t ht
    rcases List.mem_append.mp ht with hin | hin
    · exact lexLe_trans (h.2 t hin)
        (rangeTweets_last_id_le { last_id := s.last_id, logged := [] } P)
    · exact pollCycle_logged_le_last _ P t hin

theorem LogInv_pollCycles {s : PollState} (h : LogInv s)
    (pages : List (List Tweet)) : LogInv (pollCycles s pages) := by
  induction pages generalizing s with
  | nil => exact h
  | cons P Ps ih => exact ih (LogInv_rangeTweets h P)

theorem pollCycles_cons (s : PollState) (P : List Tweet)
    (Ps : List (List Tweet)) :
    pollCycles s (P :: Ps) = pollCycles (rangeTweets s P) Ps := rfl

theorem pollCycles_eq_flatten (s : PollState) (pages : List (List Tweet)) :
    pollCycles s pages = rangeTweets s pages.flatten := by
  induction pages generalizing s with
  | nil => rfl
  | cons P Ps ih =>
    rw [pollCycles_cons, ih, List.flatten_cons, rangeTweets_append]

theorem visitTrace_chain (s : PollState) (P : List Tweet) :
    List.Chain' (fun a b : PollState => lexLe a.last_id b.last_id)
      (visitTrace s P) := by
  induction P generalizing s with
  | nil => simp [visitTrace]
  | cons t ts ih =>
    cases ts with
    | nil =>
      simp only [visitTrace, List.chain'_cons, List.chain'_singleton, and_true]
      exact visit_last_id_le s t
    | cons u us =>
      have := ih (visit s t)
      simp only [visitTrace] at this ⊢
      exact List.chain'_cons.mpr ⟨visit_last_id_le s t, this⟩

theorem visitTrace_getLast (s : PollState) (P : List Tweet) :
    (visitTrace s P).getLast? = some (rangeTweets s P) := by
  induction P generalizing s with
  | nil => rfl
  | cons t ts ih =>
    have h := ih (visit s t)
    cases ts with
    | nil => simp [visitTrace, rangeTweets]
    | cons u us =>
      simp only [visitTrace] at h ⊢
      rw [List.getLast?_cons_cons]
      exact h


/-! ## The watermark lemmas for a single cycle -/

theorem pollCycle_last_id_le (W : GoString) (P : List Tweet) :
    lexLe W (pollCycle W P).last_id :=
  rangeTweets_last_id_le { last_id := W, logged := [] } P

theorem pollCycle_id_le (W : GoString) (P : List Tweet) :
    ∀ t ∈ P, lexLe t.Id (pollCycle W P).last_id :=
  rangeTweets_id_le { last_id := W, logged := [] } P

theorem pollCycle_last_id_mem (W : GoString) (P : List Tweet) :
    (pollCycle W P).last_id = W ∨ ∃ t ∈ P, t.Id = (pollCycle W P).last_id :=
  rangeTweets_last_id_mem { last_id := W, logged := [] } P

theorem pollCycle_last_id_eq_foldl (W : GoString) (P : List Tweet) :
    (pollCycle W P).last_id = specWatermark W P :=
  rangeTweets_last_id_eq_foldl { last_id := W, logged := [] } P

theorem pollCycle_of_all_le (W : GoString) (P : List Tweet)
    (h : ∀ t ∈ P, lexLe t.Id W) :
    pollCycle W P = { last_id := W, logged := [] } :=
  rangeTweets_of_all_le { last_id := W, logged := [] } P h

/-! ## The claims of the specification -/

/-- C1, as the specification states it, fails: from the watermark "" the page
with the pairwise distinct IDs "3", "1", "2" is logged as the single post "3",
while the posts above the watermark sorted by ID are "1", "2", "3". -/
theorem page312_logged_differs_from_sorted_filter :
    ((page312.map (fun t => t.Id)).Nodup) ∧
      (pollCycle [] page312).logged = [digitTweet 3] ∧
      specNewPosts [] page312 = [digitTweet 1, digitTweet 2, digitTweet 3] ∧
      (pollCycle [] page312).logged ≠ specNewPosts [] page312 := by
  decide

/-- C1 (amended): the posts logged by one poll cycle started at watermark `W`
are an order-preserving selection of the posts of the page whose ID is greater
than `W`, and their IDs are strictly increasing; when the IDs of the page are
in strictly increasing order, the logged posts are exactly the posts of the
page whose ID is greater than `W`, sorted ascending by ID. -/
theorem logged_posts_of_one_cycle (W : GoString) (P : List Tweet) :
    List.Sublist (pollCycle W P).logged
        (P.filter (fun t => decide (lexLt W t.Id))) ∧
      List.Pairwise (fun a b : Tweet => lexLt a.Id b.Id) (pollCycle W P).logged ∧
      (List.Pairwise (fun a b : Tweet => lexLt a.Id b.Id) P →
        (pollCycle W P).logged = specNewPosts W P) :=
  ⟨pollCycle_logged_sublist W P, pollCycle_logged_pairwise W P, fun hasc => by
    rw [specNewPosts_of_ascending W P hasc, pollCycle_logged_of_ascending W P hasc]⟩

/-- Instance of C1 (amended): from the watermark "" the ascending page "1",
"2", "3" is logged whole and in this order. -/
theorem logged_posts_of_one_cycle_witness :
    List.Pairwise (fun a b : Tweet => lexLt a.Id b.Id) page123 ∧
      (pollCycle [] page123).logged = specNewPosts [] page123 ∧
      specNewPosts [] page123 = [digitTweet 1, digitTweet 2, digitTweet 3] :=
  ⟨by decide, (logged_posts_of_one_cycle [] page123).2.2 (by decide), by decide⟩

/-- C2: the watermark after one poll cycle is the lexicographic maximum of the
starting watermark `W` and all post IDs of the page, whatever the page order:
it is the fold of the binary maximum over the page, it is `W` or the ID of a
post of the page, and it is greater than or equal to `W` and to every post ID
of the page.  It is `W` on the empty page, and "3" for the watermark "" and
the page "3", "1", "2". -/
theorem last_id_after_cycle_is_maximum (W : GoString) (P : List Tweet) :
    (pollCycle W P).last_id = specWatermark W P ∧
      ((pollCycle W P).last_id = W ∨ ∃ t ∈ P, t.Id = (pollCycle W P).last_id) ∧
      lexLe W (pollCycle W P).last_id ∧
      (∀ t ∈ P, lexLe t.Id (pollCycle W P).last_id) ∧
      (pollCycle W []).last_id = W ∧
      (pollCycle [] page312).last_id = (digitTweet 3).Id :=
  ⟨pollCycle_last_id_eq_foldl W P, pollCycle_last_id_mem W P,
    pollCycle_last_id_le W P, pollCycle_id_le W P, rfl, by decide⟩

/-- C3, as the specification states it, fails: the pages "1", "2" and "2", "1"
are permutations of each other, yet from the watermark "" the first logs the
post "1" and the second does not. -/
theorem logged_set_depends_on_page_order :
    List.Perm [digitTweet 1, digitTweet 2] [digitTweet 2, digitTweet 1] ∧
      digitTweet 1 ∈ (pollCycle [] [digitTweet 1, digitTweet 2]).logged ∧
      digitTweet 1 ∉ (pollCycle [] [digitTweet 2, digitTweet 1]).logged := by
  refine ⟨List.Perm.swap _ _ _, ?_, ?_⟩ <;> decide

/-- C3 (amended): for two pages that are permutations of each other, one poll
cycle started from the same watermark ends with the same watermark. -/
theorem last_id_after_cycle_of_perm (W : GoString) (P Q : List Tweet)
    (hperm : List.Perm P Q) :
    (pollCycle W P).last_id = (pollCycle W Q).last_id :=
  greatest_unique (fun _ => hperm.mem_iff)
    (pollCycle_last_id_mem W P) (pollCycle_last_id_le W P)
    (pollCycle_id_le W P)
    (pollCycle_last_id_mem W Q) (pollCycle_last_id_le W Q)
    (pollCycle_id_le W Q)

/-- Instance of C3 (amended): the pages "1", "2", "3" and "3", "1", "2" leave
the same watermark. -/
theorem last_id_after_cycle_of_perm_witness :
    List.Perm page123 page312 ∧
      (pollCycle [] page123).last_id = (pollCycle [] page312).last_id :=
  have hperm : List.Perm page123 page312 := by decide
  ⟨hperm, last_id_after_cycle_of_perm [] page123 page312 hperm⟩

/-- C4 fails on the code: when every library call succeeds and the response
decodes to an empty user list, `getTwitterUserId` returns no error value; it
panics on `r.Data[0]` (index 0, length 0), so `main` does not take its
`err != nil` branch and the process ends by the panic. -/
theorem getTwitterUserId_empty_data_panics :
    getTwitterUserId emptyUserLookup = Outcome.indexPanic 0 0 ∧
      (∀ e, getTwitterUserId emptyUserLookup ≠ Outcome.err e) ∧
      mainResolve emptyUserLookup = Phase.crashed 0 0 ∧
      (∀ e, mainResolve emptyUserLookup ≠ Phase.fatal e) := by
  refine ⟨rfl, ?_, rfl, ?_⟩
  · intro e h
    have h2 : Outcome.indexPanic 0 0 = (Outcome.err e : Outcome GoString) := h
    cases h2
  · intro e h
    have h2 : Phase.crashed 0 0 = Phase.fatal e := h
    cases h2

/-- C5: the watermark never regresses.  From every state, visiting one post
leaves `last_id` greater than or equal to its value before; along the states
gone through while successive pages are processed each `last_id` is greater
than or equal to the one before, and the last of these states is the state
after the cycles; so `last_id` after one cycle and after all cycles is greater
than or equal to the starting value. -/
theorem last_id_never_regresses (s : PollState) (pages : List (List Tweet)) :
    (∀ t, lexLe s.last_id (visit s t).last_id) ∧
      List.Chain' (fun a b : PollState => lexLe a.last_id b.last_id)
        (visitTrace s pages.flatten) ∧
      (visitTrace s pages.flatten).getLast? = some (pollCycles s pages) ∧
      (∀ P, lexLe s.last_id (rangeTweets s P).last_id) ∧
      lexLe s.last_id (pollCycles s pages).last_id := by
  refine ⟨visit_last_id_le s, visitTrace_chain s _, ?_,
    rangeTweets_last_id_le s, ?_⟩
  · rw [pollCycles_eq_flatten]
    exact visitTrace_getLast s _
  · rw [pollCycles_eq_flatten]
    exact rangeTweets_last_id_le s _

/-- C6: the IDs of the posts logged within one poll cycle, in the order in
which they are logged, are strictly increasing, for every watermark and every
page in any order. -/
theorem logged_ids_of_cycle_strictly_increasing (W : GoString) (P : List Tweet) :
    List.Pairwise lexLt ((pollCycle W P).logged.map (fun t => t.Id)) ∧
      List.Chain' lexLt ((pollCycle W P).logged.map (fun t => t.Id)) := by
  have h : List.Pairwise lexLt ((pollCycle W P).logged.map (fun t => t.Id)) :=
    List.pairwise_map.mpr (pollCycle_logged_pairwise W P)
  exact ⟨h, h.chain'⟩

/-- C7: when every post ID of the page is less than or equal to the watermark
`W` (the empty page included), one poll cycle logs nothing and leaves the
watermark equal to `W`. -/
theorem cycle_without_new_post (W : GoString) (P : List Tweet)
    (hle : ∀ t ∈ P, lexLe t.Id W) :
    (pollCycle W P).logged = [] ∧ (pollCycle W P).last_id = W := by
  have h : pollCycle W P = { last_id := W, logged := [] } :=
    pollCycle_of_all_le W P hle
  rw [h]
  exact ⟨rfl, rfl⟩

/-- Instance of C7: from the watermark "3" the page "3", "1", "2" logs nothing
and leaves the watermark "3"; so does the empty page. -/
theorem cycle_without_new_post_witness :
    ((pollCycle (digitTweet 3).Id page312).logged = [] ∧
        (pollCycle (digitTweet 3).Id page312).last_id = (digitTweet 3).Id) ∧
      ((pollCycle (digitTweet 3).Id []).logged = [] ∧
        (pollCycle (digitTweet 3).Id []).last_id = (digitTweet 3).Id) :=
  ⟨cycle_without_new_post (digitTweet 3).Id page312 (by decide),
    cycle_without_new_post (digitTweet 3).Id [] (by decide)⟩

/-- C8: if a first poll cycle on the page `P` from `W` leaves the watermark
`W1`, a second poll cycle on the same page from `W1` logs nothing and leaves
the watermark `W1`. -/
theorem second_cycle_on_same_page (W W1 : GoString) (P : List Tweet)
    (hfirst : (pollCycle W P).last_id = W1) :
    (pollCycle W1 P).logged = [] ∧ (pollCycle W1 P).last_id = W1 := by
  have hle : ∀ t ∈ P, lexLe t.Id W1 := by
    intro t ht
    rw [← hfirst]
    exact pollCycle_id_le W P t ht
  have h : pollCycle W1 P = { last_id := W1, logged := [] } :=
    pollCycle_of_all_le W1 P hle
  rw [h]
  exact ⟨rfl, rfl⟩

/-- Instance of C8: the page "3", "1", "2" from "" leaves the watermark "3",
and from "3" it logs nothing. -/
theorem second_cycle_on_same_page_witness :
    (pollCycle [] page312).last_id = (digitTweet 3).Id ∧
      (pollCycle (digitTweet 3).Id page312).logged = [] ∧
      (pollCycle (digitTweet 3).Id page312).last_id = (digitTweet 3).Id :=
  have hfirst : (pollCycle [] page312).last_id = (digitTweet 3).Id := by decide
  ⟨hfirst, second_cycle_on_same_page [] (digitTweet 3).Id page312 hfirst⟩

/-- C9: for every finite sequence of pages processed by successive poll cycles
from `last_id = ""`, the IDs of all logged posts, in the order in which they
are logged over the whole run, are strictly increasing; so no ID is logged
twice. -/
theorem logged_ids_of_run_strictly_increasing (pages : List (List Tweet)) :
    List.Pairwise lexLt ((mainPolling pages).logged.map (fun t => t.Id)) ∧
      ((mainPolling pages).logged.map (fun t => t.Id)).Nodup := by
  have hinit : LogInv { last_id := [], logged := [] } :=
    ⟨List.Pairwise.nil, fun t ht => by cases ht⟩
  have h : List.Pairwise lexLt ((mainPolling pages).logged.map (fun t => t.Id)) :=
    List.pairwise_map.mpr (LogInv_pollCycles hinit pages).1
  refine ⟨h, h.imp ?_⟩
  intro a b hab heq
  rw [heq] at hab
  exact lexLt_irrefl b hab

/-- C10: for a non-empty page whose IDs are in strictly descending order, one
poll cycle logs exactly the first post of the page when its ID is greater than
the watermark and nothing otherwise; every other post of the page is
skipped. -/
theorem descending_page_logs_head_only (W : GoString) (t : Tweet)
    (rest : List Tweet)
    (hdesc : List.Pairwise (fun a b : Tweet => lexLt b.Id a.Id) (t :: rest)) :
    (pollCycle W (t :: rest)).logged = if lexLt W t.Id then [t] else [] := by
  have hhead : ∀ u ∈ rest, lexLt u.Id t.Id := (List.pairwise_cons.mp hdesc).1
  by_cases h : lexLt W t.Id
  · rw [pollCycle_cons_of_lt rest h, if_pos h]
    have hst : pollCycle t.Id rest = { last_id := t.Id, logged := [] } :=
      pollCycle_of_all_le t.Id rest (fun u hu => lexLe_of_lexLt (hhead u hu))
    rw [hst]
  · rw [pollCycle_cons_of_not_lt rest h, if_neg h]
    have hst : pollCycle W rest = { last_id := W, logged := [] } :=
      pollCycle_of_all_le W rest (fun u hu =>
        lexLe_trans (lexLe_of_lexLt (hhead u hu)) (not_lexLt_iff.mp h))
    rw [hst]

/-- Instance of C10: from the watermark "" the page "3", "2", "1" logs the
post "3" only, although "2" and "1" are greater than "" too. -/
theorem descending_page_logs_head_only_witness :
    List.Pairwise (fun a b : Tweet => lexLt b.Id a.Id) page321 ∧
      (pollCycle [] page321).logged =
        (if lexLt [] (digitTweet 3).Id then [digitTweet 3] else []) ∧
      lexLt [] (digitTweet 2).Id ∧ lexLt [] (digitTweet 1).Id :=
  ⟨by decide,
    descending_page_logs_head_only [] (digitTweet 3)
      [digitTweet 2, digitTweet 1] (by decide),
    by decide, by decide⟩


end TweetFeeder
